import Mathlib

/-!
Formal verification of the message-tree consistency engine of the
legal-ease backend (`backend/app/crud.py`, `backend/app/api/routes/web_app.py`,
`backend/app/api/routes/tree_generation.py`).

The relational store of `Message` rows is shallowly embedded as a Lean list;
each CRUD function is translated into a pure Lean function over that list
(stateful sessions become explicit state passing, SQL queries become list
filters, exceptions become `Except`).  Operations that issue intermediate
`session.commit()` calls are modelled over a `Sess` state that separates
durably committed rows from the pending (uncommitted) operations of the
open transaction, together with an explicit success/failure schedule for
the commits.
-/

namespace LegalEase

/-- Embeds the SQLModel `Message` table row (`backend/app/models.py`):
`id` primary key, `content`, `role` (kept as a plain string), `selected`
flag, owning `simulation_id` (the tree id), and optional `parent_id`. -/
structure Message where
  id : Nat
  content : String
  role : String
  selected : Bool
  simulation_id : Nat
  parent_id : Option Nat
deriving DecidableEq, Repr

/-- A database state: the list of `Message` rows, in insertion order. -/
abbrev Store := List Message

/-- Embeds `session.get(Message, i)`: primary-key lookup. -/
def findMsg (store : Store) (i : Nat) : Option Message :=
  store.find? (fun m => m.id == i)

/-- All ids in the store are pairwise distinct (primary-key property of
the `id` column). -/
def uniqueIds (store : Store) : Prop :=
  store.Pairwise (fun a b => a.id ≠ b.id)

/-- A single row's parent reference, when non-null, points to a strictly
smaller id. -/
def parentBelow (m : Message) : Prop :=
  match m.parent_id with
  | none => True
  | some p => p < m.id

/-- Non-null parent references point to strictly smaller ids (the data-model
invariant: ids increase monotonically with creation and a parent is created
before its children). -/
def wfParentIds (store : Store) : Prop :=
  ∀ m ∈ store, parentBelow m

/-! ### Selection state machine (`crud.update_message_selected`) -/
/-- The error taxonomy of `update_message_selected`: 404 when the message
is missing, 400 when its parent is not selected, 400 naming the already
selected sibling. -/
inductive SelErr where
  | notFound : SelErr
  | parentNotSelected : SelErr
  | siblingSelected (sibId : Nat) : SelErr
deriving DecidableEq, Repr

/-- Embeds the parent check of `update_message_selected`: if `parent_id`
is set, fetch the parent and require it to exist and be selected. -/
def parentOkB (store : Store) (m : Message) : Bool :=
  match m.parent_id with
  | none => true
  | some p =>
    match findMsg store p with
    | none => false
    | some par => par.selected

/-- Embeds the sibling query of `update_message_selected`: first row with
the same `parent_id` (NULL matching NULL), a different id, the same
`simulation_id`, and `selected = true`. -/
def sibQuery (store : Store) (m : Message) (mid : Nat) : Option Message :=
  store.find? (fun x =>
    x.parent_id == m.parent_id && x.id != mid &&
    x.simulation_id == m.simulation_id && x.selected)

/-- The mutation `message.selected = True` as seen through the whole table:
only the row with the given primary key changes. -/
def selMark (mid : Nat) (x : Message) : Message :=
  if x.id == mid then { x with selected := true } else x

/-- Embeds `crud.update_message_selected` (crud.py lines 227-268).  Returns
the resulting store together with the outcome; every error is raised before
any mutation, so the store component equals the input store on error. -/
def update_message_selected (store : Store) (mid : Nat) :
    Store × Except SelErr Message :=
  match findMsg store mid with
  | none => (store, .error .notFound)
  | some msg =>
    if parentOkB store msg then
      match sibQuery store msg mid with
      | some s => (store, .error (.siblingSelected s.id))
      | none => (store.map (selMark mid), .ok { msg with selected := true })
    else (store, .error .parentNotSelected)

/-- The success condition on the parent, stated semantically: when the
message has a parent reference, some row with that id is selected. -/
def parentSelCond (store : Store) (m : Message) : Prop :=
  match m.parent_id with
  | none => True
  | some p => ∃ q ∈ store, q.id = p ∧ q.selected = true

/-- The success condition on siblings, stated semantically: no other row in
the same sibling group (same `parent_id`, same tree) is selected. -/
def noSelSibling (store : Store) (m : Message) (mid : Nat) : Prop :=
  ∀ x ∈ store, ¬(x.parent_id = m.parent_id ∧ x.id ≠ mid ∧
    x.simulation_id = m.simulation_id ∧ x.selected = true)

instance (store : Store) : Decidable (uniqueIds store) :=
  inferInstanceAs (Decidable (List.Pairwise (fun a b : Message => a.id ≠ b.id) store))

instance (m : Message) : Decidable (parentBelow m) :=
  match hp : m.parent_id with
  | none => .isTrue (by simp [parentBelow, hp])
  | some p => decidable_of_iff (p < m.id) (by simp [parentBelow, hp])

instance (store : Store) : Decidable (wfParentIds store) :=
  inferInstanceAs (Decidable (∀ m ∈ store, parentBelow m))

instance (store : Store) (m : Message) : Decidable (parentSelCond store m) :=
  match hp : m.parent_id with
  | none => .isTrue (by simp [parentSelCond, hp])
  | some p =>
    decidable_of_iff (∃ q ∈ store, q.id = p ∧ q.selected = true)
      (by simp [parentSelCond, hp])

instance (store : Store) (m : Message) (mid : Nat) :
    Decidable (noSelSibling store m mid) :=
  inferInstanceAs (Decidable (∀ x ∈ store, ¬_))

/-! ### C2: the active-path invariant is preserved by select sequences -/
/-- At most one selected message per sibling group (same `parent_id`, same
tree): two selected rows of one group are the same row. -/
def sibUniqueInv (store : Store) : Prop :=
  ∀ a ∈ store, ∀ b ∈ store, a.selected = true → b.selected = true →
    a.parent_id = b.parent_id → a.simulation_id = b.simulation_id → a = b

/-- Every selected non-root message has a selected parent. -/
def parentSelInv (store : Store) : Prop :=
  ∀ m ∈ store, m.selected = true → parentSelCond store m

/-- The active-path invariant: no two selected siblings, and every
selected non-root message has a selected parent — so the selected rows of
each tree form a single connected root-to-some-node path. -/
def activePathInv (store : Store) : Prop :=
  sibUniqueInv store ∧ parentSelInv store

instance (store : Store) : Decidable (sibUniqueInv store) :=
  inferInstanceAs (Decidable (∀ a ∈ store, ∀ b ∈ store, _ → _ → _ → _ → _))

instance (store : Store) : Decidable (parentSelInv store) :=
  inferInstanceAs (Decidable (∀ m ∈ store, _ → _))

instance (store : Store) : Decidable (activePathInv store) :=
  inferInstanceAs (Decidable (_ ∧ _))

/-- A sequence of `select` calls against the store; a call that raises
leaves the store unchanged (shown in `select_succeeds_iff`), a successful
call commits the flipped flag. -/
def applySelects (store : Store) (ids : List Nat) : Store :=
  ids.foldl (fun s i => (update_message_selected s i).1) store

/-! ### C3: trim-after (`crud.delete_messages_after_children`) -/
/-- The direct-children query `select(Message).where(Message.parent_id == message_id)`. -/
def childrenOf (store : Store) (mid : Nat) : Store :=
  store.filter (fun m => m.parent_id == some mid)

/-- The id cutoff of the trim: `max(child.id for child in children)` when the
message has direct children, otherwise the message's own id. -/
def trimCutoff (store : Store) (mid : Nat) : Nat :=
  match (childrenOf store mid).map (fun c => c.id) with
  | [] => mid
  | c :: cs => cs.foldl max c

/-- Embeds `crud.delete_messages_after_children` (crud.py lines 186-216)
together with the `ValueError → 404` translation of the
`DELETE /messages/trim-after/{id}` route: a missing target fails, otherwise
every row of the target's tree with id strictly above the cutoff is
bulk-deleted and the rowcount of the bulk delete is returned. -/
def delete_messages_after_children (store : Store) (mid : Nat) :
    Except String (Store × Nat) :=
  match findMsg store mid with
  | none => .error "not found"
  | some target =>
    let cutoff := trimCutoff store mid
    let kept := store.filter
      (fun m => !(m.simulation_id == target.simulation_id && cutoff < m.id))
    let removed := store.filter
      (fun m => m.simulation_id == target.simulation_id && cutoff < m.id)
    .ok (kept, removed.length)

/-! ### C4: full-tree traversal order (`crud.get_messages_by_tree`, `crud.get_tree`) -/
/-- All rows of one tree: `select(Message).where(Message.simulation_id == tree_id)`. -/
def treeMsgs (store : Store) (tid : Nat) : Store :=
  store.filter (fun m => m.simulation_id == tid)

/-- The Python `list.sort(key=lambda m: m.id)` — a stable sort by ascending id. -/
def sortById (l : Store) : Store :=
  List.insertionSort (fun a b => a.id ≤ b.id) l

/-- One sibling group of the `children_map`: rows grouped by `parent_id`
(in encounter order) and sorted ascending by id. -/
def childrenSorted (msgs : Store) (p : Option Nat) : Store :=
  sortById (msgs.filter (fun m => m.parent_id == p))

/-- The `dfs` inner function shared by `get_messages_by_tree` (full-tree
branch) and `get_tree`: emit each child of `p` followed by its whole
subtree.  The recursion is bounded by explicit fuel; the Python code
recurses unboundedly, and any fuel at least the longest parent-chain in
the tree yields its behaviour. -/
def dfsEmit (msgs : Store) : Nat → Option Nat → Store
  | 0, _ => []
  | fuel + 1, p =>
    (childrenSorted msgs p).flatMap (fun m => m :: dfsEmit msgs fuel (some m.id))

/-- Embeds the full-tree branch of `crud.get_messages_by_tree` (crud.py
lines 58-94): group the tree's rows by `parent_id`, sort each group by id,
and emit depth-first starting from the roots. -/
def get_messages_by_tree_full (store : Store) (tid : Nat) : Store :=
  dfsEmit (treeMsgs store tid) ((treeMsgs store tid).length + 1) none

/-- Embeds `crud.get_tree` (crud.py lines 97-139): the same depth-first
emission, followed by `ordered.sort(key=lambda m: m.id)`. -/
def get_tree (store : Store) (tid : Nat) : Store :=
  sortById (dfsEmit (treeMsgs store tid) ((treeMsgs store tid).length + 1) none)

/-! ### C5: path-mode traversal (`crud.get_messages_by_tree` with `message_id`) -/
/-- The `while current_id is not None` loop of the path branch of
`crud.get_messages_by_tree` (crud.py lines 47-57): look the current id up,
stop silently when it is missing, otherwise prepend the row and move to its
parent.  The Python loop is unbounded; on stores satisfying `wfParentIds`
the current id strictly decreases, so fuel `startId + 1` reproduces it. -/
def pathWalk (store : Store) : Nat → Option Nat → Store → Store
  | _, none, acc => acc
  | 0, some _, acc => acc
  | fuel + 1, some c, acc =>
    match findMsg store c with
    | none => acc
    | some m => pathWalk store fuel m.parent_id (m :: acc)

/-- Embeds the path mode of `crud.get_messages_by_tree`: the root-to-target
chain ending at `startId`.  The function is total — the code path contains
no `raise`; a missing id (at the start or mid-walk) just stops the loop. -/
def get_messages_by_tree_path (store : Store) (startId : Nat) : Store :=
  pathWalk store (startId + 1) (some startId) []

/-! ### Sessions with explicit commits -/
/-- A staged (uncommitted) operation of the open transaction. -/
inductive Op where
  | ins (m : Message) : Op
  | del (i : Nat) : Op
deriving DecidableEq, Repr

/-- Applying staged operations in order to a row list (the flush performed
at commit, and the view SQLAlchemy autoflush gives to queries). -/
def applyOps (rows : Store) (ops : List Op) : Store :=
  ops.foldl (fun rs op =>
    match op with
    | .ins m => rs ++ [m]
    | .del i => rs.filter (fun m => m.id != i)) rows

/-- A database session: durably committed rows, the staged operations of
the open transaction, the autoincrement id sequence (which never rolls
back), and the number of commits issued so far — the index into the
commit-outcome schedule. -/
structure Sess where
  committed : Store
  pending : List Op
  nextId : Nat
  commitCount : Nat
deriving DecidableEq, Repr

/-- The rows visible to queries inside the open transaction. -/
def Sess.view (s : Sess) : Store := applyOps s.committed s.pending

/-- `session.add(Message(...))`: stage an insert; the id is drawn from the
autoincrement sequence. -/
def insertMsg (s : Sess) (content role : String) (sel : Bool) (sim : Nat)
    (parent : Option Nat) : Sess × Message :=
  let m : Message := ⟨s.nextId, content, role, sel, sim, parent⟩
  ({ s with pending := s.pending ++ [.ins m], nextId := s.nextId + 1 }, m)

/-- `session.delete(msg)`: stage a delete. -/
def stageDel (s : Sess) (i : Nat) : Sess :=
  { s with pending := s.pending ++ [.del i] }

/-- `session.commit()` under an outcome schedule: on success the staged
operations become durable; on failure the staged operations are discarded
(every handler in the code calls `session.rollback()` right after a failed
commit).  Either way the commit counter advances. -/
def commitS (sched : Nat → Bool) (s : Sess) : Sess × Bool :=
  if sched s.commitCount then
    ({ committed := applyOps s.committed s.pending, pending := [],
       nextId := s.nextId, commitCount := s.commitCount + 1 }, true)
  else
    ({ s with pending := [], commitCount := s.commitCount + 1 }, false)

/-- `session.rollback()`: discard the staged operations. -/
def rollbackS (s : Sess) : Sess := { s with pending := [] }

/-! ### C6 (first half): `crud.delete_messages_including_children` -/
/-- Embeds `crud.delete_messages_including_children` (crud.py lines
162-183): query the direct children, then for each child recursively
delete its subtree (the recursive success flag is ignored, as in the code)
and stage the child's delete; finally commit, returning False and rolling
the staged batch back when the commit fails.  Note the recursive calls
issue their own commits.  Fuel bounds the recursion, which the Python code
runs unboundedly. -/
def delete_messages_including_children (sched : Nat → Bool) :
    Nat → Sess → Nat → Sess × Bool
  | 0, s, _ => (s, false)
  | fuel + 1, s, mid =>
    let children := s.view.filter (fun m => m.parent_id == some mid)
    let s1 := children.foldl (fun acc c =>
      stageDel (delete_messages_including_children sched fuel acc c.id).1 c.id) s
    commitS sched s1

/-! ### C7: the racing generation orchestrator (`tree_generation.create_tree`) -/
/-- The validated generation payload `TreeNode` (app/schemas.py): speaker,
line, level, justification, and nested responses. -/
structure TreeNode where
  speaker : String
  line : String
  level : Nat
  reflects_personality : String
  responses : List TreeNode
deriving Repr

/-- The sentinel error node `create_tree` builds when all three attempts
fail validation: a single level-1 node marked as a system error with no
responses. -/
def sentinelNode : TreeNode :=
  ⟨"A", "Error: Could not generate proper dialogue tree", 1,
    "System error occurred", []⟩

/-- The payload returned by `create_tree`: the scenarios tree plus the
optional error and raw-response fields present only on the sentinel. -/
structure TreeResult where
  scenarios_tree : TreeNode
  error : Option String
  raw_response : Option String
deriving Repr

/-- Embeds the race-decision logic of `tree_generation.create_tree` (lines
147-176): the three parse/validation outcomes are examined in completion
order, the first structurally valid one wins; when all three fail, the
function *returns* the sentinel error payload instead of raising. -/
def create_tree (results : List (Option TreeNode)) : TreeResult :=
  match results.findSome? id with
  | some t => ⟨t, none, none⟩
  | none =>
    ⟨sentinelNode, some "All 3 parallel attempts failed to generate valid response",
      some "Failed to parse JSON from all 3 API calls"⟩

/-! ### `tree_generation.save_messages_to_tree` -/
/-- The level-2 loop of `save_messages_to_tree`: insert one row per level-2
response (child of `pid`, unselected), committing and refreshing after each
insert; a failed commit aborts the whole call (the handler rolls back and
re-raises). -/
def saveLevel2 (sched : Nat → Bool) (tid pid : Nat) :
    List TreeNode → Sess → Sess × Except String (List Message)
  | [], s => (s, .ok [])
  | r :: rest, s =>
    let p := insertMsg s r.line r.speaker false tid (some pid)
    let q := commitS sched p.1
    if q.2 then
      match saveLevel2 sched tid pid rest q.1 with
      | (s3, .ok ms) => (s3, .ok (p.2 :: ms))
      | (s3, .error e) => (s3, .error e)
    else (q.1, .error "commit failed")

/-- The level-3 loop: for the i-th level-2 response paired with the i-th
freshly inserted level-2 row (`enumerate` plus the `i < len` guard is the
zip of the two lists), stage one unselected insert per level-3 follow-up
as a child of that row; no commit happens inside this loop. -/
def addLevel3 (tid : Nat) : List (TreeNode × Message) → Sess → Sess
  | [], s => s
  | (r, pm) :: rest, s =>
    addLevel3 tid rest
      (r.responses.foldl (fun acc q =>
        (insertMsg acc q.line q.speaker false tid (some pm.id)).1) s)

/-- Embeds `tree_generation.save_messages_to_tree` (lines 181-285).  With
no `last_message_id` the level-1 node is inserted as a new selected root
and committed; with a `last_message_id` the existing row is fetched (a
missing row raises, which the handler turns into rollback plus a 500) and
reused as level 1 without re-inserting its content.  Then the level-2 rows
are inserted (one commit each), the level-3 rows are staged, and a final
commit lands the call. -/
def save_messages_to_tree (sched : Nat → Bool) (s : Sess) (t : TreeNode)
    (tid : Nat) (lastId : Option Nat) : Sess × Except String Bool :=
  match lastId with
  | none =>
    let p := insertMsg s t.line t.speaker true tid none
    match commitS sched p.1 with
    | (s2, false) => (rollbackS s2, .error "commit failed")
    | (s2, true) =>
      match saveLevel2 sched tid p.2.id t.responses s2 with
      | (s3, .error e) => (rollbackS s3, .error e)
      | (s3, .ok l2ms) =>
        let s4 := addLevel3 tid (t.responses.zip l2ms) s3
        match commitS sched s4 with
        | (s5, true) => (s5, .ok true)
        | (s5, false) => (rollbackS s5, .error "commit failed")
  | some lid =>
    match findMsg s.view lid with
    | none => (rollbackS s, .error "last message not found")
    | some lm =>
      match saveLevel2 sched tid lm.id t.responses s with
      | (s3, .error e) => (rollbackS s3, .error e)
      | (s3, .ok l2ms) =>
        let s4 := addLevel3 tid (t.responses.zip l2ms) s3
        match commitS sched s4 with
        | (s5, true) => (s5, .ok true)
        | (s5, false) => (rollbackS s5, .error "commit failed")

/-- The rows a run of inserts produces: sequential ids starting at `n`,
all children of `parent`, all unselected. -/
def rowsSeq (tid : Nat) (parent : Option Nat) : Nat → List TreeNode → Store
  | _, [] => []
  | n, r :: rest =>
    ⟨n, r.line, r.speaker, false, tid, parent⟩ :: rowsSeq tid parent (n + 1) rest

/-- The level-3 rows: for each (level-2 response, level-2 row) pair, that
response's follow-ups as children of the row, ids continuing sequentially. -/
def level3Rows (tid : Nat) : Nat → List (TreeNode × Message) → Store
  | _, [] => []
  | n, (r, pm) :: rest =>
    rowsSeq tid (some pm.id) n r.responses ++
      level3Rows tid (n + r.responses.length) rest

/-! ### C9: the create-message endpoint (`web_app.create_message`) -/
/-- A plain autoincrement store for the endpoints that insert one row and
commit immediately. -/
structure Db where
  rows : Store
  nextId : Nat
deriving DecidableEq, Repr

/-- Embeds the `POST /messages/create` handler (web_app.py lines 211-235):
build a row with `selected = True` ("custom messages are automatically
selected"), add and commit.  There is no lookup of the parent, no check
that the parent is selected, and no check for an already selected
sibling. -/
def create_message (db : Db) (simId : Nat) (parentId : Option Nat)
    (content role : String) : Db × Message :=
  let m : Message := ⟨db.nextId, content, role, true, simId, parentId⟩
  ({ rows := db.rows ++ [m], nextId := db.nextId + 1 }, m)

/-! ### Theorems -/

/-! Basic lemmas on lookups. -/
theorem findMsg_eq_some_iff {store : Store} {i : Nat} {m : Message}
    (hm : findMsg store i = some m) : m ∈ store ∧ m.id = i := by
  refine ⟨List.mem_of_find?_eq_some hm, ?_⟩
  have := List.find?_some hm
  simpa using this

theorem findMsg_eq_none_iff {store : Store} {i : Nat} :
    findMsg store i = none ↔ ∀ m ∈ store, m.id ≠ i := by
  unfold findMsg
  rw [List.find?_eq_none]
  simp

theorem mem_id_unique {store : Store} (hu : uniqueIds store)
    {a b : Message} (ha : a ∈ store) (hb : b ∈ store) (h : a.id = b.id) :
    a = b := by
  induction store with
  | nil => cases ha
  | cons x xs ih =>
    rcases List.pairwise_cons.mp hu with ⟨hx, hxs⟩
    rcases List.mem_cons.mp ha with rfl | ha'
    · rcases List.mem_cons.mp hb with rfl | hb'
      · rfl
      · exact absurd h (hx b hb')
    · rcases List.mem_cons.mp hb with rfl | hb'
      · exact absurd h.symm (hx a ha')
      · exact ih hxs ha' hb'

theorem findMsg_of_mem {store : Store} (hu : uniqueIds store)
    {m : Message} (hm : m ∈ store) : findMsg store m.id = some m := by
  cases hfind : findMsg store m.id with
  | none =>
    exact absurd rfl (findMsg_eq_none_iff.mp hfind m hm)
  | some m' =>
    rcases findMsg_eq_some_iff hfind with ⟨hm', hid⟩
    rw [mem_id_unique hu hm' hm hid]

theorem parentOkB_iff {store : Store} (hu : uniqueIds store) (m : Message) :
    parentOkB store m = true ↔ parentSelCond store m := by
  cases hp : m.parent_id with
  | none => simp [parentOkB, parentSelCond, hp]
  | some p =>
    simp only [parentOkB, parentSelCond, hp]
    constructor
    · intro h
      cases hf : findMsg store p with
      | none => rw [hf] at h; exact absurd h (by simp)
      | some par =>
        rw [hf] at h
        rcases findMsg_eq_some_iff hf with ⟨hmem, hid⟩
        exact ⟨par, hmem, hid, h⟩
    · rintro ⟨q, hq, hqid, hqsel⟩
      have hfind : findMsg store p = some q := by
        have := findMsg_of_mem hu hq
        rwa [hqid] at this
      rw [hfind]
      exact hqsel

theorem sibQuery_none_iff {store : Store} (m : Message) (mid : Nat) :
    sibQuery store m mid = none ↔ noSelSibling store m mid := by
  unfold sibQuery noSelSibling
  rw [List.find?_eq_none]
  constructor
  · intro h x hx hcontra
    rcases hcontra with ⟨h1, h2, h3, h4⟩
    apply h x hx
    simp [h1, h2, h3, h4]
  · intro h x hx hb
    simp only [Bool.and_eq_true, beq_iff_eq, bne_iff_ne, ne_eq] at hb
    exact h x hx ⟨hb.1.1.1, hb.1.1.2, hb.1.2, hb.2⟩

theorem sibQuery_some_props {store : Store} {m : Message} {mid : Nat}
    {s : Message} (h : sibQuery store m mid = some s) :
    s ∈ store ∧ s.selected = true ∧ s.id ≠ mid := by
  refine ⟨List.mem_of_find?_eq_some h, ?_, ?_⟩
  · have := List.find?_some h
    simp only [Bool.and_eq_true] at this
    exact this.2
  · have := List.find?_some h
    simp only [Bool.and_eq_true, bne_iff_ne, ne_eq] at this
    exact this.1.1.2

/-- C1: `select(id)` (the `PATCH /messages/{id}/select` path through
`crud.update_message_selected`) succeeds, setting `selected = true` on
exactly that message, if and only if the message exists, its parent (when
it has one) is currently selected, and no sibling (same `parent_id`, same
tree) is currently selected.  When any condition fails it returns an error
(`notFound` for a missing message, a validation error — carrying the id of
the offending sibling in the sibling case — otherwise) and leaves the
store unchanged. -/
theorem select_succeeds_iff (store : Store) (mid : Nat) (hu : uniqueIds store) :
    ((update_message_selected store mid).2.isOk = true ↔
      ∃ m ∈ store, m.id = mid ∧ parentSelCond store m ∧ noSelSibling store m mid)
    ∧ ((¬ ∃ m ∈ store, m.id = mid) →
        update_message_selected store mid = (store, .error .notFound))
    ∧ (∀ e, (update_message_selected store mid).2 = .error e →
        (update_message_selected store mid).1 = store)
    ∧ (∀ k, (update_message_selected store mid).2 = .error (.siblingSelected k) →
        ∃ x ∈ store, x.id = k ∧ x.selected = true ∧ x.id ≠ mid)
    ∧ ((update_message_selected store mid).2.isOk = true →
        (update_message_selected store mid).1 =
          store.map (fun x => if x.id = mid then { x with selected := true } else x)) := by
  cases hf : findMsg store mid with
  | none =>
    have heq : update_message_selected store mid = (store, .error .notFound) := by
      simp only [update_message_selected, hf]
    have hnone : ∀ m ∈ store, m.id ≠ mid := findMsg_eq_none_iff.mp hf
    rw [heq]
    refine ⟨?_, fun _ => rfl, fun e _ => rfl, ?_, ?_⟩
    · constructor
      · intro h; exact Bool.noConfusion h
      · rintro ⟨m, hm, hmid, -⟩
        exact absurd hmid (hnone m hm)
    · intro k h; exact absurd h (by simp)
    · intro h; exact Bool.noConfusion h
  | some msg =>
    have hmsg := findMsg_eq_some_iff hf
    by_cases hpar : parentOkB store msg = true
    · cases hs : sibQuery store msg mid with
      | some s =>
        have heq : update_message_selected store mid =
            (store, .error (.siblingSelected s.id)) := by
          simp only [update_message_selected, hf, hpar, if_true, hs]
        rcases sibQuery_some_props hs with ⟨hsmem, hssel, hsne⟩
        rw [heq]
        refine ⟨?_, ?_, fun e _ => rfl, ?_, ?_⟩
        · constructor
          · intro h; exact Bool.noConfusion h
          · rintro ⟨m, hm, hmid, -, hnosib⟩
            have hmeq : m = msg := by
              apply mem_id_unique hu hm hmsg.1
              rw [hmid, hmsg.2]
            subst hmeq
            rw [← sibQuery_none_iff m mid] at hnosib
            rw [hnosib] at hs
            exact absurd hs (by simp)
        · rintro h
          exact absurd ⟨msg, hmsg.1, hmsg.2⟩ h
        · intro k h
          have hk : s.id = k := by
            have := congrArg (fun r => match r with
              | Except.error (SelErr.siblingSelected j) => j
              | _ => 0) h
            simpa using this
          exact ⟨s, hsmem, hk, hssel, hk ▸ hsne⟩
        · intro h; exact Bool.noConfusion h
      | none =>
        have heq : update_message_selected store mid =
            (store.map (selMark mid), .ok { msg with selected := true }) := by
          simp only [update_message_selected, hf, hpar, if_true, hs]
        have hnosib := (sibQuery_none_iff msg mid).mp hs
        rw [heq]
        refine ⟨?_, ?_, ?_, ?_, ?_⟩
        · constructor
          · intro _
            exact ⟨msg, hmsg.1, hmsg.2, (parentOkB_iff hu msg).mp hpar, hnosib⟩
          · intro _; rfl
        · rintro h
          exact absurd ⟨msg, hmsg.1, hmsg.2⟩ h
        · intro e h; exact absurd h (by simp)
        · intro k h; exact absurd h (by simp)
        · intro _
          simp only [Prod.fst]
          congr 1
          funext x
          by_cases hx : x.id = mid <;> simp [selMark, hx]
    · have heq : update_message_selected store mid =
          (store, .error .parentNotSelected) := by
        simp only [update_message_selected, hf]
        rw [if_neg hpar]
      rw [heq]
      refine ⟨?_, ?_, fun e _ => rfl, ?_, ?_⟩
      · constructor
        · intro h; exact Bool.noConfusion h
        · rintro ⟨m, hm, hmid, hpc, -⟩
          have hmeq : m = msg := by
            apply mem_id_unique hu hm hmsg.1
            rw [hmid, hmsg.2]
          subst hmeq
          exact ((hpar ((parentOkB_iff hu m).mpr hpc))).elim
      · rintro h
        exact absurd ⟨msg, hmsg.1, hmsg.2⟩ h
      · intro k h; exact absurd h (by simp)
      · intro h; exact Bool.noConfusion h

/-- Witness for C1 at a concrete store: root 1 selected, its child 2
unselected; selecting 2 succeeds because the parent is selected and no
sibling is selected. -/
theorem select_succeeds_iff_witness :
    uniqueIds [⟨1, "hi", "A", true, 1, none⟩, ⟨2, "re", "B", false, 1, some 1⟩] ∧
    ((update_message_selected
        [⟨1, "hi", "A", true, 1, none⟩, ⟨2, "re", "B", false, 1, some 1⟩] 2).2.isOk = true ↔
      ∃ m ∈ ([⟨1, "hi", "A", true, 1, none⟩, ⟨2, "re", "B", false, 1, some 1⟩] : Store),
        m.id = 2 ∧ parentSelCond [⟨1, "hi", "A", true, 1, none⟩,
          ⟨2, "re", "B", false, 1, some 1⟩] m ∧
        noSelSibling [⟨1, "hi", "A", true, 1, none⟩,
          ⟨2, "re", "B", false, 1, some 1⟩] m 2) :=
  ⟨by decide, (select_succeeds_iff
      [⟨1, "hi", "A", true, 1, none⟩, ⟨2, "re", "B", false, 1, some 1⟩] 2 (by decide)).1⟩

theorem selMark_id (mid : Nat) (x : Message) : (selMark mid x).id = x.id := by
  unfold selMark; by_cases h : x.id == mid <;> simp [h]

theorem selMark_parent (mid : Nat) (x : Message) :
    (selMark mid x).parent_id = x.parent_id := by
  unfold selMark; by_cases h : x.id == mid <;> simp [h]

theorem selMark_sim (mid : Nat) (x : Message) :
    (selMark mid x).simulation_id = x.simulation_id := by
  unfold selMark; by_cases h : x.id == mid <;> simp [h]

theorem selMark_of_ne (mid : Nat) (x : Message) (h : x.id ≠ mid) :
    selMark mid x = x := by
  simp [selMark, h]

theorem selMark_selected_of (mid : Nat) (x : Message) (hx : x.selected = true) :
    (selMark mid x).selected = true := by
  unfold selMark; by_cases h : x.id == mid <;> simp [h, hx]

theorem update_sel_cases (store : Store) (mid : Nat) :
    (update_message_selected store mid).1 = store ∨
    ∃ msg, findMsg store mid = some msg ∧ parentOkB store msg = true ∧
      sibQuery store msg mid = none ∧
      (update_message_selected store mid).1 = store.map (selMark mid) := by
  cases hf : findMsg store mid with
  | none => left; simp only [update_message_selected, hf]
  | some msg =>
    by_cases hpar : parentOkB store msg = true
    · cases hs : sibQuery store msg mid with
      | some s => left; simp only [update_message_selected, hf, hpar, if_true, hs]
      | none =>
        right
        refine ⟨msg, rfl, hpar, hs, ?_⟩
        simp only [update_message_selected, hf, hpar, if_true, hs]
    · left
      simp only [update_message_selected, hf]
      rw [if_neg hpar]

theorem uniqueIds_selMap (store : Store) (mid : Nat) (hu : uniqueIds store) :
    uniqueIds (store.map (selMark mid)) := by
  unfold uniqueIds at *
  rw [List.pairwise_map]
  refine hu.imp_of_mem ?_
  intro a b _ _ hab
  rw [selMark_id, selMark_id]
  exact hab

theorem activePathInv_step (store : Store) (mid : Nat)
    (hu : uniqueIds store) (hinv : activePathInv store) :
    activePathInv (update_message_selected store mid).1 ∧
    uniqueIds (update_message_selected store mid).1 := by
  rcases update_sel_cases store mid with heq | ⟨msg, hf, hpar, hs, heq⟩
  · rw [heq]; exact ⟨hinv, hu⟩
  · rw [heq]
    have hmsg := findMsg_eq_some_iff hf
    have hnosib := (sibQuery_none_iff msg mid).mp hs
    have hpc := (parentOkB_iff hu msg).mp hpar
    refine ⟨⟨?_, ?_⟩, uniqueIds_selMap store mid hu⟩
    · -- sibling uniqueness is preserved
      intro a' ha' b' hb' hasel hbsel hpar' hsim'
      rcases List.mem_map.mp ha' with ⟨a, ha, rfl⟩
      rcases List.mem_map.mp hb' with ⟨b, hb, rfl⟩
      rw [selMark_parent, selMark_parent] at hpar'
      rw [selMark_sim, selMark_sim] at hsim'
      by_cases hamid : a.id = mid <;> by_cases hbmid : b.id = mid
      · have : a = b := mem_id_unique hu ha hb (by rw [hamid, hbmid])
        rw [this]
      · have haeq : a = msg := mem_id_unique hu ha hmsg.1 (by rw [hamid, hmsg.2])
        have hbsel' : b.selected = true := by
          rwa [selMark_of_ne mid b hbmid] at hbsel
        exact absurd ⟨by rw [← hpar', haeq], hbmid, by rw [← hsim', haeq], hbsel'⟩
          (hnosib b hb)
      · have hbeq : b = msg := mem_id_unique hu hb hmsg.1 (by rw [hbmid, hmsg.2])
        have hasel' : a.selected = true := by
          rwa [selMark_of_ne mid a hamid] at hasel
        exact absurd ⟨by rw [hpar', hbeq], hamid, by rw [hsim', hbeq], hasel'⟩
          (hnosib a ha)
      · have hasel' : a.selected = true := by
          rwa [selMark_of_ne mid a hamid] at hasel
        have hbsel' : b.selected = true := by
          rwa [selMark_of_ne mid b hbmid] at hbsel
        exact congrArg (selMark mid)
          (hinv.1 a ha b hb hasel' hbsel' hpar' hsim')
    · -- selected parents stay selected
      intro m' hm' hmsel
      rcases List.mem_map.mp hm' with ⟨m, hm, rfl⟩
      have hparents : ∀ p, m.parent_id = some p →
          ∃ q ∈ store, q.id = p ∧ q.selected = true := by
        intro p hp
        by_cases hmmid : m.id = mid
        · have hmeq : m = msg := mem_id_unique hu hm hmsg.1 (by rw [hmmid, hmsg.2])
          have hthis := hpc
          unfold parentSelCond at hthis
          rw [← hmeq, hp] at hthis
          exact hthis
        · have hmsel' : m.selected = true := by
            rwa [selMark_of_ne mid m hmmid] at hmsel
          have hthis := hinv.2 m hm hmsel'
          unfold parentSelCond at hthis
          rw [hp] at hthis
          exact hthis
      unfold parentSelCond
      rw [selMark_parent]
      cases hp : m.parent_id with
      | none => trivial
      | some p =>
        rcases hparents p hp with ⟨q, hq, hqid, hqsel⟩
        exact ⟨selMark mid q, List.mem_map_of_mem (selMark mid) hq,
          by rw [selMark_id, hqid], selMark_selected_of mid q hqsel⟩

/-- C2: starting from any store satisfying the active-path invariant (at
most one selected message per sibling group, every selected non-root
message has a selected parent), any sequence of `select` calls — the
successful ones flip one flag, the failing ones leave the store unchanged —
preserves the invariant, so the selected messages still form a single
connected root-to-some-node path per tree. -/
theorem select_sequence_preserves_active_path (store : Store) (ids : List Nat)
    (hu : uniqueIds store) (hinv : activePathInv store) :
    activePathInv (applySelects store ids) := by
  induction ids generalizing store with
  | nil => exact hinv
  | cons i rest ih =>
    have hstep := activePathInv_step store i hu hinv
    exact ih (update_message_selected store i).1 hstep.2 hstep.1

/-- Witness for C2: root 1 selected with unselected children 2 and 3;
selecting 2 and then (vainly) its sibling 3 keeps the invariant. -/
theorem select_sequence_preserves_active_path_witness :
    uniqueIds [⟨1, "hi", "A", true, 1, none⟩, ⟨2, "r1", "B", false, 1, some 1⟩,
        ⟨3, "r2", "B", false, 1, some 1⟩] ∧
    activePathInv [⟨1, "hi", "A", true, 1, none⟩, ⟨2, "r1", "B", false, 1, some 1⟩,
        ⟨3, "r2", "B", false, 1, some 1⟩] ∧
    activePathInv (applySelects [⟨1, "hi", "A", true, 1, none⟩,
        ⟨2, "r1", "B", false, 1, some 1⟩, ⟨3, "r2", "B", false, 1, some 1⟩] [2, 3]) :=
  ⟨by decide, by decide,
    select_sequence_preserves_active_path _ [2, 3] (by decide) (by decide)⟩

theorem le_foldl_max (l : List Nat) (a : Nat) : a ≤ l.foldl max a := by
  induction l generalizing a with
  | nil => exact Nat.le_refl a
  | cons b bs ih => exact le_trans (Nat.le_max_left a b) (ih (max a b))

theorem foldl_max_cases (l : List Nat) (a : Nat) :
    l.foldl max a = a ∨ l.foldl max a ∈ l := by
  induction l generalizing a with
  | nil => left; rfl
  | cons b bs ih =>
    rcases ih (max a b) with h | h
    · rcases max_choice a b with hm | hm
      · left; simpa [hm] using h
      · right; simp only [List.foldl_cons]
        rw [h, hm]; exact List.mem_cons_self b bs
    · right; exact List.mem_cons_of_mem b h

theorem mem_le_foldl_max (l : List Nat) (a : Nat) (x : Nat) (hx : x ∈ l) :
    x ≤ l.foldl max a := by
  induction l generalizing a with
  | nil => cases hx
  | cons b bs ih =>
    rcases List.mem_cons.mp hx with rfl | hx'
    · exact le_trans (Nat.le_max_right a x) (le_foldl_max bs (max a x))
    · exact ih (max a b) hx'

theorem filter_length_split (p : Message → Bool) (l : Store) :
    (l.filter p).length + (l.filter (fun m => !p m)).length = l.length := by
  induction l with
  | nil => rfl
  | cons x xs ih =>
    simp only [List.filter_cons]
    cases hx : p x with
    | true =>
      rw [if_pos rfl, if_neg (by simp)]
      simp only [List.length_cons]
      omega
    | false =>
      rw [if_neg (by simp), if_pos (by simp)]
      simp only [List.length_cons]
      omega

theorem trimCutoff_spec (store : Store) (mid : Nat) :
    (childrenOf store mid = [] ∧ trimCutoff store mid = mid) ∨
    (∃ c ∈ childrenOf store mid, trimCutoff store mid = c.id ∧
      ∀ d ∈ childrenOf store mid, d.id ≤ trimCutoff store mid) := by
  cases hch : childrenOf store mid with
  | nil => left; exact ⟨rfl, by simp [trimCutoff, hch]⟩
  | cons c cs =>
    right
    have hcut : trimCutoff store mid = (cs.map (fun c => c.id)).foldl max c.id := by
      simp [trimCutoff, hch]
    have hub : ∀ d ∈ c :: cs, d.id ≤ trimCutoff store mid := by
      intro d hd
      rw [hcut]
      rcases List.mem_cons.mp hd with rfl | hd'
      · exact le_foldl_max _ _
      · exact mem_le_foldl_max _ _ _ (List.mem_map_of_mem (fun c => c.id) hd')
    rcases foldl_max_cases (cs.map (fun c => c.id)) c.id with h | h
    · exact ⟨c, List.mem_cons_self c cs, by rw [hcut, h], hub⟩
    · rcases List.mem_map.mp h with ⟨d, hd, hdid⟩
      exact ⟨d, List.mem_cons_of_mem c hd, by rw [hcut, hdid], hub⟩

theorem mem_childrenOf {store : Store} {mid : Nat} {c : Message} :
    c ∈ childrenOf store mid ↔ c ∈ store ∧ c.parent_id = some mid := by
  unfold childrenOf
  rw [List.mem_filter]
  simp

/-- C3: trim-after (`delete_messages_after_children`): for an existing
message the cutoff is the maximum id among its direct children (its own id
when it has none); exactly the same-tree rows with id strictly greater than
the cutoff are deleted — the target, its direct children and every
same-tree row with id at most the cutoff survive — and the number of
deleted rows is returned; a missing id fails (surfaced as 404 by the
route). -/
theorem trim_after_spec (store : Store) (mid : Nat) (hwf : wfParentIds store) :
    ((∀ m ∈ store, m.id ≠ mid) →
      delete_messages_after_children store mid = .error "not found")
    ∧ (∀ target, findMsg store mid = some target →
        ∃ st n, delete_messages_after_children store mid = .ok (st, n) ∧
          ((childrenOf store mid = [] ∧ trimCutoff store mid = mid) ∨
           (∃ c ∈ childrenOf store mid, trimCutoff store mid = c.id ∧
              ∀ d ∈ childrenOf store mid, d.id ≤ trimCutoff store mid))
          ∧ (∀ m ∈ store, (m ∈ st ↔
              ¬(m.simulation_id = target.simulation_id ∧ trimCutoff store mid < m.id)))
          ∧ (∀ m ∈ st, m ∈ store)
          ∧ target ∈ st
          ∧ (∀ c ∈ childrenOf store mid, c ∈ st)
          ∧ n + st.length = store.length) := by
  constructor
  · intro hnone
    have hf : findMsg store mid = none := findMsg_eq_none_iff.mpr hnone
    simp only [delete_messages_after_children, hf]
  · intro target hf
    have htarget := findMsg_eq_some_iff hf
    refine ⟨store.filter (fun m => !(m.simulation_id == target.simulation_id &&
        decide (trimCutoff store mid < m.id))),
      (store.filter (fun m => m.simulation_id == target.simulation_id &&
        decide (trimCutoff store mid < m.id))).length,
      ?_, ?_, ?_, ?_, ?_, ?_, ?_⟩
    · simp only [delete_messages_after_children, hf]
    · exact trimCutoff_spec store mid
    · intro m hm
      rw [List.mem_filter]
      simp only [hm, true_and, Bool.not_eq_eq_eq_not, Bool.not_true,
        Bool.and_eq_false_iff]
      constructor
      · rintro (h | h) ⟨hsim, hlt⟩
        · exact absurd hsim (by simpa using h)
        · exact absurd hlt (by simpa using h)
      · intro h
        by_cases hsim : m.simulation_id = target.simulation_id
        · right
          simp only [decide_eq_false_iff_not, not_lt]
          by_contra hlt
          exact h ⟨hsim, lt_of_not_ge hlt⟩
        · left
          simpa using hsim
    · intro m hm
      exact (List.mem_filter.mp hm).1
    · rw [List.mem_filter]
      refine ⟨htarget.1, ?_⟩
      simp only [Bool.not_eq_eq_eq_not, Bool.not_true, Bool.and_eq_false_iff]
      right
      simp only [decide_eq_false_iff_not, not_lt, htarget.2]
      rcases trimCutoff_spec store mid with ⟨-, hcut⟩ | ⟨c, hc, hcut, -⟩
      · exact le_of_eq hcut.symm
      · rcases mem_childrenOf.mp hc with ⟨hcs, hcp⟩
        have h0 := hwf c hcs
        simp only [parentBelow, hcp] at h0
        rw [hcut]
        exact le_of_lt h0
    · intro c hc
      rw [List.mem_filter]
      refine ⟨(mem_childrenOf.mp hc).1, ?_⟩
      simp only [Bool.not_eq_eq_eq_not, Bool.not_true, Bool.and_eq_false_iff]
      right
      simp only [decide_eq_false_iff_not, not_lt]
      rcases trimCutoff_spec store mid with ⟨hemp, -⟩ | ⟨d, -, -, hub⟩
      · rw [hemp] at hc; cases hc
      · exact hub c hc
    · exact filter_length_split (fun m => m.simulation_id == target.simulation_id &&
        decide (trimCutoff store mid < m.id)) store

/-- Witness for C3: tree 1 holds root 1 with children 2 and 3 and a deeper
row 4; trimming after 1 keeps rows with id ≤ 3 and deletes row 4. -/
theorem trim_after_spec_witness :
    wfParentIds [⟨1, "a", "A", true, 1, none⟩, ⟨2, "b", "B", false, 1, some 1⟩,
      ⟨3, "c", "B", false, 1, some 1⟩, ⟨4, "d", "A", false, 1, some 2⟩] ∧
    (∀ target, findMsg [⟨1, "a", "A", true, 1, none⟩, ⟨2, "b", "B", false, 1, some 1⟩,
        ⟨3, "c", "B", false, 1, some 1⟩, ⟨4, "d", "A", false, 1, some 2⟩] 1 = some target →
      ∃ st n, delete_messages_after_children [⟨1, "a", "A", true, 1, none⟩,
          ⟨2, "b", "B", false, 1, some 1⟩, ⟨3, "c", "B", false, 1, some 1⟩,
          ⟨4, "d", "A", false, 1, some 2⟩] 1 = .ok (st, n) ∧
        ((childrenOf [⟨1, "a", "A", true, 1, none⟩, ⟨2, "b", "B", false, 1, some 1⟩,
            ⟨3, "c", "B", false, 1, some 1⟩, ⟨4, "d", "A", false, 1, some 2⟩] 1 = [] ∧
          trimCutoff [⟨1, "a", "A", true, 1, none⟩, ⟨2, "b", "B", false, 1, some 1⟩,
            ⟨3, "c", "B", false, 1, some 1⟩, ⟨4, "d", "A", false, 1, some 2⟩] 1 = 1) ∨
         (∃ c ∈ childrenOf [⟨1, "a", "A", true, 1, none⟩, ⟨2, "b", "B", false, 1, some 1⟩,
            ⟨3, "c", "B", false, 1, some 1⟩, ⟨4, "d", "A", false, 1, some 2⟩] 1,
            trimCutoff [⟨1, "a", "A", true, 1, none⟩, ⟨2, "b", "B", false, 1, some 1⟩,
              ⟨3, "c", "B", false, 1, some 1⟩, ⟨4, "d", "A", false, 1, some 2⟩] 1 = c.id ∧
            ∀ d ∈ childrenOf [⟨1, "a", "A", true, 1, none⟩, ⟨2, "b", "B", false, 1, some 1⟩,
              ⟨3, "c", "B", false, 1, some 1⟩, ⟨4, "d", "A", false, 1, some 2⟩] 1,
              d.id ≤ trimCutoff [⟨1, "a", "A", true, 1, none⟩,
                ⟨2, "b", "B", false, 1, some 1⟩, ⟨3, "c", "B", false, 1, some 1⟩,
                ⟨4, "d", "A", false, 1, some 2⟩] 1))
        ∧ (∀ m ∈ ([⟨1, "a", "A", true, 1, none⟩, ⟨2, "b", "B", false, 1, some 1⟩,
            ⟨3, "c", "B", false, 1, some 1⟩, ⟨4, "d", "A", false, 1, some 2⟩] : Store),
            (m ∈ st ↔ ¬(m.simulation_id = target.simulation_id ∧
              trimCutoff [⟨1, "a", "A", true, 1, none⟩, ⟨2, "b", "B", false, 1, some 1⟩,
                ⟨3, "c", "B", false, 1, some 1⟩, ⟨4, "d", "A", false, 1, some 2⟩] 1 < m.id)))
        ∧ (∀ m ∈ st, m ∈ ([⟨1, "a", "A", true, 1, none⟩, ⟨2, "b", "B", false, 1, some 1⟩,
            ⟨3, "c", "B", false, 1, some 1⟩, ⟨4, "d", "A", false, 1, some 2⟩] : Store))
        ∧ target ∈ st
        ∧ (∀ c ∈ childrenOf [⟨1, "a", "A", true, 1, none⟩, ⟨2, "b", "B", false, 1, some 1⟩,
            ⟨3, "c", "B", false, 1, some 1⟩, ⟨4, "d", "A", false, 1, some 2⟩] 1, c ∈ st)
        ∧ n + st.length = 4) :=
  ⟨by decide, (trim_after_spec [⟨1, "a", "A", true, 1, none⟩,
      ⟨2, "b", "B", false, 1, some 1⟩, ⟨3, "c", "B", false, 1, some 1⟩,
      ⟨4, "d", "A", false, 1, some 2⟩] 1 (by decide)).2⟩

theorem mem_sortById {l : Store} {m : Message} : m ∈ sortById l ↔ m ∈ l :=
  (List.perm_insertionSort (fun a b => a.id ≤ b.id) l).mem_iff

theorem mem_dfsEmit_sub (msgs : Store) (fuel : Nat) (p : Option Nat)
    (m : Message) (hm : m ∈ dfsEmit msgs fuel p) : m ∈ msgs := by
  induction fuel generalizing p with
  | zero => cases hm
  | succ fuel ih =>
    rw [dfsEmit] at hm
    rcases List.mem_flatMap.mp hm with ⟨c, hc, hmc⟩
    rcases List.mem_cons.mp hmc with rfl | hmc'
    · exact (List.mem_filter.mp (mem_sortById.mp hc)).1
    · exact ih (some c.id) hmc'

/-- C4 (amended): the full-tree branch of `get_messages_by_tree` emits the
depth-first order (it *is* the `dfs` emission over id-sorted sibling
groups), but `get_tree` re-sorts that emission ascending by id, so its
output is the id-sorted permutation of the depth-first order rather than
the depth-first order itself.  Both traversals emit only rows of the tree,
and every root of the tree is emitted. -/
theorem tree_traversal_orders (store : Store) (tid : Nat) :
    get_tree store tid = sortById (get_messages_by_tree_full store tid)
    ∧ (get_tree store tid).Sorted (fun a b => a.id ≤ b.id)
    ∧ (get_tree store tid).Perm (get_messages_by_tree_full store tid)
    ∧ (∀ m ∈ get_messages_by_tree_full store tid, m ∈ treeMsgs store tid)
    ∧ (∀ m ∈ treeMsgs store tid, m.parent_id = none →
        m ∈ get_messages_by_tree_full store tid) := by
  refine ⟨rfl, ?_, ?_, ?_, ?_⟩
  · haveI : IsTotal Message (fun a b => a.id ≤ b.id) :=
      ⟨fun a b => Nat.le_total a.id b.id⟩
    haveI : IsTrans Message (fun a b => a.id ≤ b.id) :=
      ⟨fun _ _ _ hab hbc => le_trans hab hbc⟩
    exact List.sorted_insertionSort _ _
  · exact List.perm_insertionSort _ _
  · exact fun m hm => mem_dfsEmit_sub _ _ _ m hm
  · intro m hm hp
    unfold get_messages_by_tree_full
    rw [dfsEmit]
    refine List.mem_flatMap.mpr ⟨m, ?_, List.mem_cons_self m _⟩
    exact mem_sortById.mpr (List.mem_filter.mpr ⟨hm, by simp [hp]⟩)

/-- Counterexample to C4 as stated: in the store with root 1, children 2
and 3, and grandchild 4 (a child of 2), depth-first order is 1, 2, 4, 3 —
but `get_tree` returns 1, 2, 3, 4, which is not the depth-first order. -/
theorem get_tree_id_order_counterexample :
    (get_messages_by_tree_full [⟨1, "a", "A", true, 1, none⟩,
        ⟨2, "b", "B", false, 1, some 1⟩, ⟨3, "c", "B", false, 1, some 1⟩,
        ⟨4, "d", "A", false, 1, some 2⟩] 1).map (fun m => m.id) = [1, 2, 4, 3] ∧
    (get_tree [⟨1, "a", "A", true, 1, none⟩, ⟨2, "b", "B", false, 1, some 1⟩,
        ⟨3, "c", "B", false, 1, some 1⟩,
        ⟨4, "d", "A", false, 1, some 2⟩] 1).map (fun m => m.id) = [1, 2, 3, 4] ∧
    get_tree [⟨1, "a", "A", true, 1, none⟩, ⟨2, "b", "B", false, 1, some 1⟩,
        ⟨3, "c", "B", false, 1, some 1⟩, ⟨4, "d", "A", false, 1, some 2⟩] 1 ≠
      get_messages_by_tree_full [⟨1, "a", "A", true, 1, none⟩,
        ⟨2, "b", "B", false, 1, some 1⟩, ⟨3, "c", "B", false, 1, some 1⟩,
        ⟨4, "d", "A", false, 1, some 2⟩] 1 := by
  refine ⟨?_, ?_, ?_⟩ <;> decide

theorem pathWalk_spec (store : Store) (hwf : wfParentIds store) :
    ∀ fuel c acc, c < fuel →
      ∃ pre, pathWalk store fuel (some c) acc = pre ++ acc ∧
        ((pre = [] ∧ findMsg store c = none) ∨
         (∃ m, findMsg store c = some m ∧ pre.getLast? = some m ∧
           List.Chain' (fun a b => b.parent_id = some a.id) pre ∧
           (∀ x ∈ pre, x ∈ store) ∧
           (∀ h, pre.head? = some h → h.parent_id = none ∨
             ∃ pv, h.parent_id = some pv ∧ findMsg store pv = none))) := by
  intro fuel
  induction fuel with
  | zero => intro c acc hc; exact absurd hc (Nat.not_lt_zero c)
  | succ f ih =>
    intro c acc hc
    simp only [pathWalk]
    cases hfind : findMsg store c with
    | none => exact ⟨[], rfl, Or.inl ⟨rfl, rfl⟩⟩
    | some m =>
      dsimp only
      have hm := findMsg_eq_some_iff hfind
      cases hp : m.parent_id with
      | none =>
        refine ⟨[m], by simp [pathWalk], Or.inr ⟨m, rfl, rfl,
          List.chain'_singleton m, ?_, ?_⟩⟩
        · intro x hx
          rcases List.mem_singleton.mp hx with rfl
          exact hm.1
        · intro h hh
          have : h = m := (by simpa using hh : m = h).symm
          subst this
          exact Or.inl hp
      | some pv =>
        have hpv : pv < c := by
          have h0 := hwf m hm.1
          simp only [parentBelow, hp] at h0
          rw [hm.2] at h0
          exact h0
        have hlt : pv < f := lt_of_lt_of_le hpv (Nat.lt_succ_iff.mp hc)
        rcases ih pv (m :: acc) hlt with ⟨pre', heq', hcase⟩
        refine ⟨pre' ++ [m], ?_, ?_⟩
        · rw [heq', List.append_assoc]
          rfl
        · rcases hcase with ⟨rfl, hnone⟩ | ⟨m', hm', hlast', hchain', hmem', hhead'⟩
          · right
            refine ⟨m, rfl, by simp, by simp [List.chain'_singleton], ?_, ?_⟩
            · intro x hx
              rcases List.mem_singleton.mp (by simpa using hx) with rfl
              exact hm.1
            · intro h hh
              have : h = m := (by simpa using hh : m = h).symm
              subst this
              exact Or.inr ⟨pv, hp, hnone⟩
          · right
            have hm'id : m'.id = pv := (findMsg_eq_some_iff hm').2
            refine ⟨m, rfl, by rw [List.getLast?_concat], ?_, ?_, ?_⟩
            · refine List.Chain'.append hchain' (List.chain'_singleton m) ?_
              intro x hx y hy
              have hx' : x = m' := by
                rw [hlast'] at hx
                exact (by simpa using hx : m' = x).symm
              have hy' : y = m := (by simpa using hy : m = y).symm
              subst hx'; subst hy'
              rw [hp, hm'id]
            · intro x hx
              rcases List.mem_append.mp hx with hx' | hx'
              · exact hmem' x hx'
              · rcases List.mem_singleton.mp hx' with rfl
                exact hm.1
            · intro h hh
              cases pre' with
              | nil => cases hlast'
              | cons a t =>
                have : h = a := (by simpa using hh : a = h).symm
                subst this
                exact hhead' h rfl

/-- C5 (amended): path-mode traversal never raises.  When the starting id
does not exist the walk stops at once and returns the empty list (rather
than failing with NotFound); when the starting id exists the result is a
parent-linked chain ending at the start message, made of store rows, whose
first element is either a root or a row whose referenced parent is missing
from the store (the silent mid-walk stop). -/
theorem path_mode_silent_stop (store : Store) (startId : Nat) (hwf : wfParentIds store) :
    (findMsg store startId = none → get_messages_by_tree_path store startId = [])
    ∧ (∀ m, findMsg store startId = some m →
        (get_messages_by_tree_path store startId).getLast? = some m ∧
        List.Chain' (fun a b => b.parent_id = some a.id)
          (get_messages_by_tree_path store startId) ∧
        (∀ x ∈ get_messages_by_tree_path store startId, x ∈ store) ∧
        (∀ h, (get_messages_by_tree_path store startId).head? = some h →
          h.parent_id = none ∨
          ∃ pv, h.parent_id = some pv ∧ findMsg store pv = none)) := by
  rcases pathWalk_spec store hwf (startId + 1) startId [] (Nat.lt_succ_self startId)
    with ⟨pre, heq, hcase⟩
  have hres : get_messages_by_tree_path store startId = pre := by
    rw [get_messages_by_tree_path, heq, List.append_nil]
  constructor
  · intro hnone
    rcases hcase with ⟨rfl, -⟩ | ⟨m, hm, -⟩
    · rwa [List.append_nil] at heq
    · rw [hm] at hnone; cases hnone
  · intro m hm
    rcases hcase with ⟨rfl, hnone⟩ | ⟨m', hm', hlast', hchain', hmem', hhead'⟩
    · rw [hnone] at hm; cases hm
    · have : m' = m := by rw [hm'] at hm; injection hm
      subst this
      rw [hres]
      exact ⟨hlast', hchain', hmem', hhead'⟩

/-- Counterexample to C5 as stated: looking up the nonexistent starting id
99 in a nonempty store returns the empty list — the code contains no
`raise` on this path, so no NotFound error occurs. -/
theorem path_mode_missing_start_counterexample :
    get_messages_by_tree_path [⟨1, "a", "A", true, 1, none⟩] 99 = [] := by decide

/-- Witness for C5 at a concrete store whose row 5 references the missing
parent 3: walking from 5 yields the partial chain stopping at 5. -/
theorem path_mode_silent_stop_witness :
    wfParentIds [⟨1, "a", "A", true, 1, none⟩, ⟨5, "e", "B", false, 1, some 3⟩] ∧
    (∀ m, findMsg [⟨1, "a", "A", true, 1, none⟩, ⟨5, "e", "B", false, 1, some 3⟩] 5
        = some m →
      (get_messages_by_tree_path [⟨1, "a", "A", true, 1, none⟩,
          ⟨5, "e", "B", false, 1, some 3⟩] 5).getLast? = some m ∧
      List.Chain' (fun a b => b.parent_id = some a.id)
        (get_messages_by_tree_path [⟨1, "a", "A", true, 1, none⟩,
          ⟨5, "e", "B", false, 1, some 3⟩] 5) ∧
      (∀ x ∈ get_messages_by_tree_path [⟨1, "a", "A", true, 1, none⟩,
          ⟨5, "e", "B", false, 1, some 3⟩] 5,
        x ∈ ([⟨1, "a", "A", true, 1, none⟩, ⟨5, "e", "B", false, 1, some 3⟩] : Store)) ∧
      (∀ h, (get_messages_by_tree_path [⟨1, "a", "A", true, 1, none⟩,
          ⟨5, "e", "B", false, 1, some 3⟩] 5).head? = some h →
        h.parent_id = none ∨ ∃ pv, h.parent_id = some pv ∧
          findMsg [⟨1, "a", "A", true, 1, none⟩,
            ⟨5, "e", "B", false, 1, some 3⟩] pv = none)) :=
  ⟨by decide, (path_mode_silent_stop [⟨1, "a", "A", true, 1, none⟩,
      ⟨5, "e", "B", false, 1, some 3⟩] 5 (by decide)).2⟩

theorem findSome_id_none {results : List (Option TreeNode)}
    (hall : ∀ r ∈ results, r = none) : results.findSome? id = none := by
  induction results with
  | nil => rfl
  | cons r rest ih =>
    have hr := hall r (List.mem_cons_self r rest)
    subst hr
    simpa using ih (fun x hx => hall x (List.mem_cons_of_mem none hx))

/-- C7: when all 3 redundant generation attempts fail structural
validation, `create_tree` does not raise — it returns the sentinel
error-tree whose `scenarios_tree` is a single level-1 node marked as a
system error with an empty responses list, so the caller receives a
success-class soft-failure payload. -/
theorem create_tree_sentinel (results : List (Option TreeNode))
    (hlen : results.length = 3) (hall : ∀ r ∈ results, r = none) :
    create_tree results =
      ⟨sentinelNode, some "All 3 parallel attempts failed to generate valid response",
        some "Failed to parse JSON from all 3 API calls"⟩
    ∧ sentinelNode.level = 1
    ∧ sentinelNode.responses = []
    ∧ sentinelNode.reflects_personality = "System error occurred"
    ∧ (create_tree results).error.isSome = true := by
  have h0 : create_tree results =
      ⟨sentinelNode, some "All 3 parallel attempts failed to generate valid response",
        some "Failed to parse JSON from all 3 API calls"⟩ := by
    unfold create_tree
    rw [findSome_id_none hall]
  exact ⟨h0, rfl, rfl, rfl, by rw [h0]; rfl⟩

/-- Witness for C7: all three attempts return invalid output. -/
theorem create_tree_sentinel_witness :
    ([none, none, none] : List (Option TreeNode)).length = 3 ∧
    (∀ r ∈ ([none, none, none] : List (Option TreeNode)), r = none) ∧
    create_tree [none, none, none] =
      ⟨sentinelNode, some "All 3 parallel attempts failed to generate valid response",
        some "Failed to parse JSON from all 3 API calls"⟩ :=
  ⟨rfl, by simp,
    (create_tree_sentinel [none, none, none] rfl (by simp)).1⟩

theorem rowsSeq_length (tid : Nat) (parent : Option Nat) (n : Nat)
    (rs : List TreeNode) : (rowsSeq tid parent n rs).length = rs.length := by
  induction rs generalizing n with
  | nil => rfl
  | cons r rest ih => simp [rowsSeq, ih]

theorem rowsSeq_selected (tid : Nat) (parent : Option Nat) (n : Nat)
    (rs : List TreeNode) : ∀ m ∈ rowsSeq tid parent n rs,
      m.selected = false ∧ m.parent_id = parent := by
  induction rs generalizing n with
  | nil => intro m hm; cases hm
  | cons r rest ih =>
    intro m hm
    rcases List.mem_cons.mp hm with rfl | hm'
    · exact ⟨rfl, rfl⟩
    · exact ih (n + 1) m hm'

theorem level3Rows_selected (tid : Nat) (n : Nat)
    (prs : List (TreeNode × Message)) : ∀ m ∈ level3Rows tid n prs,
      m.selected = false ∧ ∃ pr ∈ prs, m.parent_id = some pr.2.id := by
  induction prs generalizing n with
  | nil => intro m hm; cases hm
  | cons pr rest ih =>
    intro m hm
    rcases pr with ⟨r, pm⟩
    rcases List.mem_append.mp hm with hm' | hm'
    · rcases rowsSeq_selected tid (some pm.id) n r.responses m hm' with ⟨hsel, hpar⟩
      exact ⟨hsel, ⟨(r, pm), List.mem_cons_self _ _, hpar⟩⟩
    · rcases ih (n + r.responses.length) m hm' with ⟨hsel, pr', hpr', hpar⟩
      exact ⟨hsel, pr', List.mem_cons_of_mem _ hpr', hpar⟩

theorem applyOps_ins_one (rows : Store) (m : Message) :
    applyOps rows [Op.ins m] = rows ++ [m] := rfl

/-- Success-path characterization of the level-2 loop under an all-success
commit schedule. -/
theorem saveLevel2_ok (sched : Nat → Bool) (hsched : ∀ n, sched n = true)
    (tid pid : Nat) (rs : List TreeNode) :
    ∀ s : Sess, s.pending = [] →
      saveLevel2 sched tid pid rs s =
        (⟨s.committed ++ rowsSeq tid (some pid) s.nextId rs, [],
          s.nextId + rs.length, s.commitCount + rs.length⟩,
         .ok (rowsSeq tid (some pid) s.nextId rs)) := by
  induction rs with
  | nil =>
    intro s hp
    cases s with
    | mk c pend n cc =>
      simp only at hp
      subst hp
      simp [saveLevel2, rowsSeq]
  | cons r rest ih =>
    intro s hp
    cases s with
    | mk c pend n cc =>
      simp only at hp
      subst hp
      have hstep : saveLevel2 sched tid pid (r :: rest) ⟨c, [], n, cc⟩ =
          match saveLevel2 sched tid pid rest
            ⟨c ++ [⟨n, r.line, r.speaker, false, tid, some pid⟩], [], n + 1, cc + 1⟩ with
          | (s3, .ok ms) =>
            (s3, .ok ((⟨n, r.line, r.speaker, false, tid, some pid⟩ : Message) :: ms))
          | (s3, .error e) => (s3, .error e) := by
        simp [saveLevel2, insertMsg, commitS, hsched, applyOps]
      rw [hstep, ih ⟨c ++ [(⟨n, r.line, r.speaker, false, tid, some pid⟩ : Message)], [],
        n + 1, cc + 1⟩ rfl]
      dsimp only
      simp only [rowsSeq, List.length_cons, Prod.mk.injEq, Sess.mk.injEq,
        List.append_assoc, List.singleton_append]
      refine ⟨⟨?_, ?_, ?_, ?_⟩, ?_⟩
      all_goals first | rfl | trivial | omega

theorem insFold_pending (tid : Nat) (parent : Option Nat) (qs : List TreeNode) :
    ∀ s : Sess, qs.foldl (fun acc q =>
        (insertMsg acc q.line q.speaker false tid parent).1) s =
      ⟨s.committed, s.pending ++ (rowsSeq tid parent s.nextId qs).map Op.ins,
        s.nextId + qs.length, s.commitCount⟩ := by
  induction qs with
  | nil => intro s; cases s; simp [rowsSeq]
  | cons q rest ih =>
    intro s
    simp only [List.foldl_cons]
    rw [ih]
    simp only [insertMsg, rowsSeq, List.map_cons, List.length_cons,
      Sess.mk.injEq, List.append_assoc, List.singleton_append]
    refine ⟨?_, ?_, ?_, ?_⟩
    all_goals first | rfl | trivial | omega

theorem addLevel3_spec (tid : Nat) (prs : List (TreeNode × Message)) :
    ∀ s : Sess, addLevel3 tid prs s =
      ⟨s.committed, s.pending ++ (level3Rows tid s.nextId prs).map Op.ins,
        s.nextId + (level3Rows tid s.nextId prs).length, s.commitCount⟩ := by
  induction prs with
  | nil => intro s; cases s; simp [addLevel3, level3Rows]
  | cons pr rest ih =>
    rcases pr with ⟨r, pm⟩
    intro s
    simp only [addLevel3]
    rw [insFold_pending, ih]
    simp only [level3Rows, List.map_append, List.length_append,
      Sess.mk.injEq, List.append_assoc, rowsSeq_length]
    refine ⟨?_, ?_, ?_, ?_⟩
    all_goals first | rfl | trivial | omega

theorem applyOps_insList (rows L : Store) : applyOps rows (L.map Op.ins) = rows ++ L := by
  induction L generalizing rows with
  | nil => simp [applyOps]
  | cons m rest ih =>
    simp only [List.map_cons, applyOps, List.foldl_cons]
    have := ih (rows ++ [m])
    simp only [applyOps] at this
    rw [this, List.append_assoc, List.singleton_append]

/-- Success-path characterization of `save_messages_to_tree` in new-tree
mode (no `last_message_id`): the selected level-1 root is inserted first,
then the level-2 rows as its children, then the level-3 rows as children
of their level-2 rows. -/
theorem save_messages_ok_new (sched : Nat → Bool) (hsched : ∀ n, sched n = true)
    (s : Sess) (hp : s.pending = []) (t : TreeNode) (tid : Nat) :
    save_messages_to_tree sched s t tid none =
      (⟨s.committed ++ (⟨s.nextId, t.line, t.speaker, true, tid, none⟩ :
          Message) :: (rowsSeq tid (some s.nextId) (s.nextId + 1) t.responses ++
          level3Rows tid (s.nextId + 1 + t.responses.length)
            (t.responses.zip (rowsSeq tid (some s.nextId) (s.nextId + 1) t.responses))),
        [],
        s.nextId + 1 + t.responses.length +
          (level3Rows tid (s.nextId + 1 + t.responses.length)
            (t.responses.zip (rowsSeq tid (some s.nextId) (s.nextId + 1)
              t.responses))).length,
        s.commitCount + 1 + t.responses.length + 1⟩,
       .ok true) := by
  cases s with
  | mk C pend n cc =>
    simp only at hp
    subst hp
    have h1 : save_messages_to_tree sched ⟨C, [], n, cc⟩ t tid none =
        match saveLevel2 sched tid n t.responses
          ⟨C ++ [(⟨n, t.line, t.speaker, true, tid, none⟩ : Message)], [],
            n + 1, cc + 1⟩ with
        | (s3, .error e) => (rollbackS s3, .error e)
        | (s3, .ok l2ms) =>
          match commitS sched (addLevel3 tid (t.responses.zip l2ms) s3) with
          | (s5, true) => (s5, .ok true)
          | (s5, false) => (rollbackS s5, .error "commit failed") := by
      simp [save_messages_to_tree, insertMsg, commitS, hsched, applyOps]
    rw [h1, saveLevel2_ok sched hsched tid n t.responses _ rfl]
    dsimp only
    rw [addLevel3_spec]
    dsimp only
    simp only [List.nil_append]
    have h2 : ∀ ops : List Op, ∀ C' : Store, ∀ n' cc' : Nat,
        commitS sched ⟨C', ops, n', cc'⟩ =
          (⟨applyOps C' ops, [], n', cc' + 1⟩, true) := by
      intro ops C' n' cc'
      simp [commitS, hsched]
    rw [h2, applyOps_insList]
    dsimp only
    simp only [Prod.mk.injEq, Sess.mk.injEq, List.append_assoc, List.singleton_append]
    refine ⟨⟨?_, ?_, ?_, ?_⟩, ?_⟩
    all_goals first | rfl | trivial | omega

/-- Success-path characterization of `save_messages_to_tree` in
continuation mode: the supplied row is reused as level 1 and only the
level-2 and level-3 rows are inserted. -/
theorem save_messages_ok_cont (sched : Nat → Bool) (hsched : ∀ n, sched n = true)
    (s : Sess) (hp : s.pending = []) (t : TreeNode) (tid : Nat) (lid : Nat)
    (lm : Message) (hlm : findMsg s.view lid = some lm) :
    save_messages_to_tree sched s t tid (some lid) =
      (⟨s.committed ++ (rowsSeq tid (some lm.id) s.nextId t.responses ++
          level3Rows tid (s.nextId + t.responses.length)
            (t.responses.zip (rowsSeq tid (some lm.id) s.nextId t.responses))),
        [],
        s.nextId + t.responses.length +
          (level3Rows tid (s.nextId + t.responses.length)
            (t.responses.zip (rowsSeq tid (some lm.id) s.nextId t.responses))).length,
        s.commitCount + t.responses.length + 1⟩,
       .ok true) := by
  cases s with
  | mk C pend n cc =>
    simp only at hp
    subst hp
    have h1 : save_messages_to_tree sched ⟨C, [], n, cc⟩ t tid (some lid) =
        match saveLevel2 sched tid lm.id t.responses ⟨C, [], n, cc⟩ with
        | (s3, .error e) => (rollbackS s3, .error e)
        | (s3, .ok l2ms) =>
          match commitS sched (addLevel3 tid (t.responses.zip l2ms) s3) with
          | (s5, true) => (s5, .ok true)
          | (s5, false) => (rollbackS s5, .error "commit failed") := by
      simp only [save_messages_to_tree, hlm]
    rw [h1, saveLevel2_ok sched hsched tid lm.id t.responses _ rfl]
    dsimp only
    rw [addLevel3_spec]
    dsimp only
    simp only [List.nil_append]
    have h2 : ∀ ops : List Op, ∀ C' : Store, ∀ n' cc' : Nat,
        commitS sched ⟨C', ops, n', cc'⟩ =
          (⟨applyOps C' ops, [], n', cc' + 1⟩, true) := by
      intro ops C' n' cc'
      simp [commitS, hsched]
    rw [h2, applyOps_insList]
    dsimp only
    simp only [Prod.mk.injEq, Sess.mk.injEq, List.append_assoc]

/-- C10: persisting a generation call with no prior node id inserts the
level-1 root with `selected = true`, while every level-2 and level-3 row
of the call is inserted with `selected = false` — the freshly generated
root is pre-selected without going through the selection state machine. -/
theorem save_new_tree_selected_flags (sched : Nat → Bool)
    (hsched : ∀ n, sched n = true) (s : Sess) (hp : s.pending = [])
    (t : TreeNode) (tid : Nat) :
    (save_messages_to_tree sched s t tid none).2 = .ok true
    ∧ ∃ root rest,
        (save_messages_to_tree sched s t tid none).1.committed =
          s.committed ++ root :: rest
        ∧ root.selected = true ∧ root.parent_id = none ∧ root.content = t.line
        ∧ ∀ m ∈ rest, m.selected = false := by
  rw [save_messages_ok_new sched hsched s hp t tid]
  refine ⟨rfl, ⟨s.nextId, t.line, t.speaker, true, tid, none⟩, _, rfl, rfl, rfl, rfl, ?_⟩
  intro m hm
  rcases List.mem_append.mp hm with h | h
  · exact (rowsSeq_selected _ _ _ _ m h).1
  · exact (level3Rows_selected _ _ _ m h).1

/-- Witness for C10 at a concrete generation payload. -/
theorem save_new_tree_selected_flags_witness :
    (∀ n : Nat, (fun _ : Nat => true) n = true) ∧
    ((save_messages_to_tree (fun _ => true) ⟨[], [], 1, 0⟩
        ⟨"A", "x", 1, "p", [⟨"B", "y", 2, "q", [⟨"A", "z", 3, "r", []⟩]⟩]⟩ 1 none).2 =
      .ok true
     ∧ ∃ root rest,
        (save_messages_to_tree (fun _ => true) ⟨[], [], 1, 0⟩
          ⟨"A", "x", 1, "p", [⟨"B", "y", 2, "q", [⟨"A", "z", 3, "r", []⟩]⟩]⟩ 1
            none).1.committed = ([] : Store) ++ root :: rest
        ∧ root.selected = true ∧ root.parent_id = none ∧ root.content = "x"
        ∧ ∀ m ∈ rest, m.selected = false) :=
  ⟨fun _ => rfl, save_new_tree_selected_flags (fun _ => true) (fun _ => rfl)
    ⟨[], [], 1, 0⟩ rfl ⟨"A", "x", 1, "p", [⟨"B", "y", 2, "q", [⟨"A", "z", 3, "r", []⟩]⟩]⟩ 1⟩

theorem rowsSeq_zip (tid : Nat) (parent : Option Nat) :
    ∀ (rs : List TreeNode) (n : Nat),
      ∀ q ∈ (rowsSeq tid parent n rs).zip rs,
        q.1.parent_id = parent ∧ q.1.selected = false ∧
        q.1.content = q.2.line ∧ q.1.role = q.2.speaker := by
  intro rs
  induction rs with
  | nil => intro n q hq; cases hq
  | cons r rest ih =>
    intro n q hq
    simp only [rowsSeq, List.zip_cons_cons] at hq
    rcases List.mem_cons.mp hq with rfl | hq'
    · exact ⟨rfl, rfl, rfl, rfl⟩
    · exact ih (n + 1) q hq'

/-- The level-3 rows split into one block per (level-2 response, level-2
row) pair: the block holds exactly that response's follow-ups, in order,
each as a child of *that* level-2 row. -/
theorem level3Rows_blocks (tid : Nat) :
    ∀ (prs : List (TreeNode × Message)) (n : Nat),
      ∃ blocks : List Store,
        level3Rows tid n prs = blocks.flatten
        ∧ blocks.length = prs.length
        ∧ ∀ bp ∈ blocks.zip prs,
            bp.1.length = bp.2.1.responses.length ∧
            ∀ q ∈ bp.1.zip bp.2.1.responses,
              q.1.parent_id = some bp.2.2.id ∧ q.1.selected = false ∧
              q.1.content = q.2.line ∧ q.1.role = q.2.speaker := by
  intro prs
  induction prs with
  | nil =>
    intro n
    refine ⟨[], rfl, rfl, ?_⟩
    intro bp hbp
    simp at hbp
  | cons pr rest ih =>
    rcases pr with ⟨r, pm⟩
    intro n
    rcases ih (n + r.responses.length) with ⟨blocks', heq', hlen', hprop'⟩
    refine ⟨rowsSeq tid (some pm.id) n r.responses :: blocks', ?_, ?_, ?_⟩
    · simp only [level3Rows, List.flatten_cons, heq']
    · simp [hlen']
    · intro bp hbp
      simp only [List.zip_cons_cons] at hbp
      rcases List.mem_cons.mp hbp with rfl | hbp'
      · exact ⟨rowsSeq_length _ _ _ _,
          fun q hq => rowsSeq_zip tid (some pm.id) r.responses n q hq⟩
      · exact hprop' bp hbp'

/-- C8: persisting with a prior node id does not re-insert the level-1
content: the existing supplied row — already present in the store — is
reused as level 1; one level-2 row is inserted per level-2 response, in
order, as a child of the supplied row and carrying that response's line
and speaker; and the level-3 rows split into one block per (level-2
response, level-2 row) pair, the block holding exactly that response's
follow-ups, in order, each inserted as a child of *that* level-2 row — so
every parent row enters the store (its id assigned) before any row that
references it.  With no prior node id, level 1 is inserted as a new root
with null `parent_id` and the level-2/level-3 rows attach beneath it in
the same way. -/
theorem save_messages_structure (sched : Nat → Bool)
    (hsched : ∀ n, sched n = true) (s : Sess) (hp : s.pending = [])
    (t : TreeNode) (tid : Nat) :
    (∀ lid lm, findMsg s.view lid = some lm →
      lm ∈ s.committed
      ∧ (save_messages_to_tree sched s t tid (some lid)).2 = .ok true
      ∧ ∃ L2 L3,
          (save_messages_to_tree sched s t tid (some lid)).1.committed =
            s.committed ++ (L2 ++ L3)
          ∧ L2.length = t.responses.length
          ∧ (∀ m ∈ L2, m.parent_id = some lm.id ∧ m.selected = false)
          ∧ (∀ p ∈ L2.zip t.responses,
              p.1.content = p.2.line ∧ p.1.role = p.2.speaker)
          ∧ ∃ blocks : List Store,
              L3 = blocks.flatten
              ∧ blocks.length = t.responses.length
              ∧ ∀ bp ∈ blocks.zip (t.responses.zip L2),
                  bp.1.length = bp.2.1.responses.length ∧
                  ∀ q ∈ bp.1.zip bp.2.1.responses,
                    q.1.parent_id = some bp.2.2.id ∧ q.1.selected = false ∧
                    q.1.content = q.2.line ∧ q.1.role = q.2.speaker)
    ∧ ((save_messages_to_tree sched s t tid none).2 = .ok true
       ∧ ∃ root L2 L3,
           (save_messages_to_tree sched s t tid none).1.committed =
             s.committed ++ root :: (L2 ++ L3)
           ∧ root.parent_id = none ∧ root.content = t.line ∧ root.role = t.speaker
           ∧ L2.length = t.responses.length
           ∧ (∀ m ∈ L2, m.parent_id = some root.id ∧ m.selected = false)
           ∧ (∀ p ∈ L2.zip t.responses,
               p.1.content = p.2.line ∧ p.1.role = p.2.speaker)
           ∧ ∃ blocks : List Store,
               L3 = blocks.flatten
               ∧ blocks.length = t.responses.length
               ∧ ∀ bp ∈ blocks.zip (t.responses.zip L2),
                   bp.1.length = bp.2.1.responses.length ∧
                   ∀ q ∈ bp.1.zip bp.2.1.responses,
                     q.1.parent_id = some bp.2.2.id ∧ q.1.selected = false ∧
                     q.1.content = q.2.line ∧ q.1.role = q.2.speaker) := by
  have hzipval : ∀ (pid : Nat) (n0 : Nat),
      ∀ p ∈ (rowsSeq tid (some pid) n0 t.responses).zip t.responses,
        p.1.content = p.2.line ∧ p.1.role = p.2.speaker := by
    intro pid n0 p hpr
    exact ⟨(rowsSeq_zip tid (some pid) t.responses n0 p hpr).2.2.1,
      (rowsSeq_zip tid (some pid) t.responses n0 p hpr).2.2.2⟩
  have hblocks : ∀ (pid : Nat) (n0 n1 : Nat),
      ∃ blocks : List Store,
        level3Rows tid n1 (t.responses.zip (rowsSeq tid (some pid) n0 t.responses)) =
          blocks.flatten
        ∧ blocks.length = t.responses.length
        ∧ ∀ bp ∈ blocks.zip
            (t.responses.zip (rowsSeq tid (some pid) n0 t.responses)),
            bp.1.length = bp.2.1.responses.length ∧
            ∀ q ∈ bp.1.zip bp.2.1.responses,
              q.1.parent_id = some bp.2.2.id ∧ q.1.selected = false ∧
              q.1.content = q.2.line ∧ q.1.role = q.2.speaker := by
    intro pid n0 n1
    rcases level3Rows_blocks tid
      (t.responses.zip (rowsSeq tid (some pid) n0 t.responses)) n1 with
      ⟨blocks, h1, h2, h3⟩
    refine ⟨blocks, h1, ?_, h3⟩
    rw [h2, List.length_zip, rowsSeq_length, min_self]
  constructor
  · intro lid lm hlm
    have hview : s.view = s.committed := by
      show applyOps s.committed s.pending = s.committed
      rw [hp]
      rfl
    refine ⟨?_, ?_, ?_⟩
    · have := (findMsg_eq_some_iff hlm).1
      rwa [hview] at this
    · rw [save_messages_ok_cont sched hsched s hp t tid lid lm hlm]
    · refine ⟨rowsSeq tid (some lm.id) s.nextId t.responses,
        level3Rows tid (s.nextId + t.responses.length)
          (t.responses.zip (rowsSeq tid (some lm.id) s.nextId t.responses)),
        ?_, rowsSeq_length _ _ _ _, ?_, hzipval lm.id s.nextId, ?_⟩
      · rw [save_messages_ok_cont sched hsched s hp t tid lid lm hlm]
      · intro m hm
        exact ⟨(rowsSeq_selected _ _ _ _ m hm).2, (rowsSeq_selected _ _ _ _ m hm).1⟩
      · exact hblocks lm.id s.nextId (s.nextId + t.responses.length)
  · refine ⟨?_, ⟨s.nextId, t.line, t.speaker, true, tid, none⟩,
      rowsSeq tid (some s.nextId) (s.nextId + 1) t.responses,
      level3Rows tid (s.nextId + 1 + t.responses.length)
        (t.responses.zip (rowsSeq tid (some s.nextId) (s.nextId + 1) t.responses)),
      ?_, rfl, rfl, rfl, rowsSeq_length _ _ _ _, ?_,
      hzipval s.nextId (s.nextId + 1), ?_⟩
    · rw [save_messages_ok_new sched hsched s hp t tid]
    · rw [save_messages_ok_new sched hsched s hp t tid]
    · intro m hm
      exact ⟨(rowsSeq_selected _ _ _ _ m hm).2, (rowsSeq_selected _ _ _ _ m hm).1⟩
    · exact hblocks s.nextId (s.nextId + 1) (s.nextId + 1 + t.responses.length)

/-- Witness for C8: continuing from stored row 1 with one level-2 response
holding one level-3 follow-up, instantiated at the stored row itself. -/
theorem save_messages_structure_witness :
    (∀ n : Nat, (fun _ : Nat => true) n = true) ∧
    (Sess.pending ⟨[⟨1, "hi", "A", true, 1, none⟩], [], 2, 0⟩ = []) ∧
    findMsg (Sess.view ⟨[⟨1, "hi", "A", true, 1, none⟩], [], 2, 0⟩) 1 =
      some ⟨1, "hi", "A", true, 1, none⟩ ∧
    ((⟨1, "hi", "A", true, 1, none⟩ : Message) ∈
        ([⟨1, "hi", "A", true, 1, none⟩] : Store)
     ∧ (save_messages_to_tree (fun _ => true)
          ⟨[⟨1, "hi", "A", true, 1, none⟩], [], 2, 0⟩
          ⟨"A", "x", 1, "p", [⟨"B", "y", 2, "q", [⟨"A", "z", 3, "r", []⟩]⟩]⟩ 1
          (some 1)).2 = .ok true
     ∧ ∃ L2 L3,
         (save_messages_to_tree (fun _ => true)
           ⟨[⟨1, "hi", "A", true, 1, none⟩], [], 2, 0⟩
           ⟨"A", "x", 1, "p", [⟨"B", "y", 2, "q", [⟨"A", "z", 3, "r", []⟩]⟩]⟩ 1
           (some 1)).1.committed =
           [⟨1, "hi", "A", true, 1, none⟩] ++ (L2 ++ L3)
         ∧ L2.length = 1
         ∧ (∀ m ∈ L2, m.parent_id = some 1 ∧ m.selected = false)
         ∧ (∀ p ∈ L2.zip [(⟨"B", "y", 2, "q", [⟨"A", "z", 3, "r", []⟩]⟩ : TreeNode)],
             p.1.content = p.2.line ∧ p.1.role = p.2.speaker)
         ∧ ∃ blocks : List Store,
             L3 = blocks.flatten
             ∧ blocks.length = 1
             ∧ ∀ bp ∈ blocks.zip
                 ([(⟨"B", "y", 2, "q", [⟨"A", "z", 3, "r", []⟩]⟩ : TreeNode)].zip L2),
                 bp.1.length = bp.2.1.responses.length ∧
                 ∀ q ∈ bp.1.zip bp.2.1.responses,
                   q.1.parent_id = some bp.2.2.id ∧ q.1.selected = false ∧
                   q.1.content = q.2.line ∧ q.1.role = q.2.speaker) :=
  ⟨fun _ => rfl, rfl, rfl,
    (save_messages_structure (fun _ => true) (fun _ => rfl)
      ⟨[⟨1, "hi", "A", true, 1, none⟩], [], 2, 0⟩ rfl
      ⟨"A", "x", 1, "p", [⟨"B", "y", 2, "q", [⟨"A", "z", 3, "r", []⟩]⟩]⟩ 1).1 1
      ⟨1, "hi", "A", true, 1, none⟩ rfl⟩

/-! ### C6: the multi-step operations and their commit granularity -/
theorem foldl_del_committed (sched : Nat → Bool) (fuel : Nat)
    (hcom : ∀ s mid,
      (delete_messages_including_children sched fuel s mid).1.committed = s.committed) :
    ∀ (children : Store) (s : Sess),
      (children.foldl (fun acc c =>
        stageDel (delete_messages_including_children sched fuel acc c.id).1 c.id)
          s).committed = s.committed := by
  intro children
  induction children with
  | nil => intro s; rfl
  | cons c cs ih =>
    intro s
    simp only [List.foldl_cons]
    rw [ih]
    show ((delete_messages_including_children sched fuel s c.id).1).committed = _
    exact hcom s c.id

theorem delete_including_allfail (sched : Nat → Bool) (hsched : ∀ n, sched n = false) :
    ∀ fuel (s : Sess) (mid : Nat),
      (delete_messages_including_children sched fuel s mid).1.committed = s.committed ∧
      (delete_messages_including_children sched fuel s mid).2 = false := by
  intro fuel
  induction fuel with
  | zero => intro s mid; exact ⟨rfl, rfl⟩
  | succ f ih =>
    intro s mid
    have hcom : ∀ s' mid',
        (delete_messages_including_children sched f s' mid').1.committed = s'.committed :=
      fun s' mid' => (ih s' mid').1
    have hcf : ∀ s1 : Sess, commitS sched s1 =
        ({ s1 with pending := [], commitCount := s1.commitCount + 1 }, false) := by
      intro s1
      simp [commitS, hsched]
    simp only [delete_messages_including_children]
    rw [hcf]
    exact ⟨foldl_del_committed sched f hcom _ s, rfl⟩

theorem save_messages_allfail (sched : Nat → Bool) (hsched : ∀ n, sched n = false)
    (s : Sess) (t : TreeNode) (tid : Nat) (lastId : Option Nat) :
    (save_messages_to_tree sched s t tid lastId).1.committed = s.committed ∧
    ∃ e, (save_messages_to_tree sched s t tid lastId).2 = .error e := by
  have hcf : ∀ s1 : Sess, commitS sched s1 =
      ({ s1 with pending := [], commitCount := s1.commitCount + 1 }, false) := by
    intro s1
    simp [commitS, hsched]
  cases lastId with
  | none =>
    simp only [save_messages_to_tree, insertMsg]
    rw [hcf]
    exact ⟨rfl, "commit failed", rfl⟩
  | some lid =>
    cases hfind : findMsg s.view lid with
    | none =>
      simp only [save_messages_to_tree, hfind]
      exact ⟨rfl, "last message not found", rfl⟩
    | some lm =>
      cases hrs : t.responses with
      | nil =>
        simp only [save_messages_to_tree, hfind, hrs, saveLevel2]
        simp only [List.zip_nil_left, addLevel3]
        rw [hcf]
        exact ⟨rfl, "commit failed", rfl⟩
      | cons r rest =>
        simp only [save_messages_to_tree, hfind, hrs, saveLevel2, insertMsg]
        rw [hcf]
        simp only [Bool.false_eq_true, if_false]
        exact ⟨rfl, "commit failed", rfl⟩

/-- C6 (amended): the two multi-step operations are atomic only per commit
step.  A failed commit rolls back exactly the mutations staged since the
last successful commit (in particular, when every commit fails the store
is untouched and the operation reports failure), but mutations committed
by earlier steps of the same operation persist — the subtree deletion
commits during its recursion and the generation persistence commits after
the level-1 insert and after each level-2 insert. -/
theorem multi_step_rollback_per_commit (sched : Nat → Bool)
    (hsched : ∀ n, sched n = false) :
    (∀ fuel (s : Sess) (mid : Nat),
      (delete_messages_including_children sched fuel s mid).1.committed = s.committed ∧
      (delete_messages_including_children sched fuel s mid).2 = false)
    ∧ (∀ (s : Sess) (t : TreeNode) (tid : Nat) (lastId : Option Nat),
        (save_messages_to_tree sched s t tid lastId).1.committed = s.committed ∧
        ∃ e, (save_messages_to_tree sched s t tid lastId).2 = .error e) :=
  ⟨delete_including_allfail sched hsched,
    fun s t tid lastId => save_messages_allfail sched hsched s t tid lastId⟩

/-- Witness for C6 (amended) with an always-failing commit schedule. -/
theorem multi_step_rollback_per_commit_witness :
    (∀ n : Nat, (fun _ : Nat => false) n = false) ∧
    ((delete_messages_including_children (fun _ => false) 3
        ⟨[⟨1, "a", "A", false, 1, none⟩, ⟨2, "b", "B", false, 1, some 1⟩], [], 3, 0⟩
        1).1.committed =
      [⟨1, "a", "A", false, 1, none⟩, ⟨2, "b", "B", false, 1, some 1⟩]
     ∧ (delete_messages_including_children (fun _ => false) 3
        ⟨[⟨1, "a", "A", false, 1, none⟩, ⟨2, "b", "B", false, 1, some 1⟩], [], 3, 0⟩
        1).2 = false) :=
  ⟨fun _ => rfl, (multi_step_rollback_per_commit (fun _ => false) (fun _ => rfl)).1 3
    ⟨[⟨1, "a", "A", false, 1, none⟩, ⟨2, "b", "B", false, 1, some 1⟩], [], 3, 0⟩ 1⟩

/-- Counterexample to C6 as stated: with the store `1 ← 2 ← 3` (3 a child
of 2, 2 a child of 1) and a schedule whose third commit fails,
delete-subtree(1) reports failure yet row 3 is durably gone — the deletes
committed by the recursion survive the later failure.  Likewise, a
generation persistence whose second commit fails reports an error yet
leaves the committed level-1 root behind. -/
theorem transactional_rollback_counterexample :
    ((delete_messages_including_children (fun k => decide (k < 2)) 5
        ⟨[⟨1, "a", "A", false, 1, none⟩, ⟨2, "b", "B", false, 1, some 1⟩,
          ⟨3, "c", "A", false, 1, some 2⟩], [], 4, 0⟩ 1).2 = false
     ∧ (delete_messages_including_children (fun k => decide (k < 2)) 5
        ⟨[⟨1, "a", "A", false, 1, none⟩, ⟨2, "b", "B", false, 1, some 1⟩,
          ⟨3, "c", "A", false, 1, some 2⟩], [], 4, 0⟩ 1).1.committed =
        [⟨1, "a", "A", false, 1, none⟩, ⟨2, "b", "B", false, 1, some 1⟩]
     ∧ (delete_messages_including_children (fun k => decide (k < 2)) 5
        ⟨[⟨1, "a", "A", false, 1, none⟩, ⟨2, "b", "B", false, 1, some 1⟩,
          ⟨3, "c", "A", false, 1, some 2⟩], [], 4, 0⟩ 1).1.committed ≠
        [⟨1, "a", "A", false, 1, none⟩, ⟨2, "b", "B", false, 1, some 1⟩,
          ⟨3, "c", "A", false, 1, some 2⟩])
    ∧ ((save_messages_to_tree (fun k => decide (k = 0)) ⟨[], [], 1, 0⟩
          ⟨"A", "hello", 1, "x", [⟨"B", "r1", 2, "y", []⟩]⟩ 7 none).2 =
        .error "commit failed"
     ∧ (save_messages_to_tree (fun k => decide (k = 0)) ⟨[], [], 1, 0⟩
          ⟨"A", "hello", 1, "x", [⟨"B", "r1", 2, "y", []⟩]⟩ 7 none).1.committed =
        [⟨1, "hello", "A", true, 7, none⟩]
     ∧ (save_messages_to_tree (fun k => decide (k = 0)) ⟨[], [], 1, 0⟩
          ⟨"A", "hello", 1, "x", [⟨"B", "r1", 2, "y", []⟩]⟩ 7 none).1.committed ≠
        ([] : Store)) := by
  refine ⟨⟨?_, ?_, ?_⟩, ?_, ?_, ?_⟩ <;> first | rfl | decide

/-- C9: `create_message` always inserts the new message with
`selected = true` and performs no selection validation — it unconditionally
succeeds and only appends the row.  Consequently, from a store whose active
path already holds a selected sibling, one `create_message` call yields two
selected siblings, and a subsequent `select` on yet another sibling is then
rejected, naming one of them. -/
theorem create_message_no_validation (db : Db) (simId : Nat)
    (parentId : Option Nat) (content role : String) :
    ((create_message db simId parentId content role).2.selected = true
     ∧ (create_message db simId parentId content role).1.rows =
         db.rows ++ [(create_message db simId parentId content role).2]
     ∧ (create_message db simId parentId content role).2.parent_id = parentId
     ∧ (create_message db simId parentId content role).2.simulation_id = simId)
    ∧ ((create_message ⟨[⟨1, "a", "A", true, 1, none⟩, ⟨2, "b", "B", true, 1, some 1⟩,
          ⟨3, "c", "B", false, 1, some 1⟩], 4⟩ 1 (some 1) "d" "B").1.rows =
        [⟨1, "a", "A", true, 1, none⟩, ⟨2, "b", "B", true, 1, some 1⟩,
          ⟨3, "c", "B", false, 1, some 1⟩, ⟨4, "d", "B", true, 1, some 1⟩]
       ∧ ¬ sibUniqueInv [⟨1, "a", "A", true, 1, none⟩, ⟨2, "b", "B", true, 1, some 1⟩,
          ⟨3, "c", "B", false, 1, some 1⟩, ⟨4, "d", "B", true, 1, some 1⟩]
       ∧ (update_message_selected [⟨1, "a", "A", true, 1, none⟩,
            ⟨2, "b", "B", true, 1, some 1⟩, ⟨3, "c", "B", false, 1, some 1⟩,
            ⟨4, "d", "B", true, 1, some 1⟩] 3).2 = .error (.siblingSelected 2)) :=
  ⟨⟨rfl, rfl, rfl, rfl⟩, by decide, by decide, rfl⟩

end LegalEase
